import Mathlib

/-
  Shallow embedding of the Paragraph block plugin (src/unnamed/part_001).

  The block keeps its state in the DOM: an editable text element whose
  innerHTML is a markup string, and a tag container whose children are
  span elements, one per tag identifier, each holding the identifier as
  its content.  We model the DOM state directly: the innerHTML of the
  text element as a String, and the children of the tag container as a
  List String of identifiers in DOM order.  DOM elements themselves are
  modelled by numeric identities (document.createElement returns a fresh
  node; reference identity is identity of the number).

  The private cache field of the class is overwritten by the getter on
  every read before being returned, so it is unobservable and the getter
  is modelled as a pure function of the DOM state.

  JavaScript behaviours that matter are modelled explicitly:
  - absent fields are Option.none;
  - the || defaulting on strings maps both undefined and the empty
    string to the default;
  - string concatenation with undefined appends the text "undefined";
  - spreading undefined into an array literal throws a TypeError, and
    calling trim on undefined throws a TypeError, so merge and validate
    return Except.
-/

namespace ParagraphBlock

/-- A data record as exchanged with the host; either field may be absent. -/
structure InputData where
  text : Option String
  tags : Option (List String)
deriving Repr, DecidableEq

/-- The record produced by the data getter: both fields always present. -/
structure ParagraphData where
  text : String
  tags : List String
deriving Repr, DecidableEq

/-- The user configuration: both options may be absent. -/
structure ToolConfig where
  placeholder : Option String
  preserveBlank : Option Bool
deriving Repr, DecidableEq

/-- The in-memory state of one block instance. -/
structure Paragraph where
  /-- innerHTML of the editable text element. -/
  textHTML : String
  /-- the tag identifiers held by the children of the tag container, in DOM order. -/
  tagsDOM : List String
  placeholder : String
  preserveBlank : Bool
  readOnly : Bool
  textElement : Nat
  tagsElement : Nat
  containerElement : Nat
deriving Repr, DecidableEq

/-- JavaScript truthiness defaulting on strings: `s || d` yields `d` when
`s` is undefined or the empty string, and `s` otherwise. -/
def jsOr (o : Option String) (dflt : String) : String :=
  match o with
  | none => dflt
  | some s => if s = "" then dflt else s

/-- static get DEFAULT_PLACEHOLDER: the empty string. -/
def DEFAULT_PLACEHOLDER : String := ""

/-- drawView: creates three fresh elements — the editable text element,
the tag container and the wrapping container, the last appending the
other two.  Fresh nodes are modelled by consecutive identities. -/
def drawView (freshId : Nat) : Nat × Nat × Nat :=
  (freshId, freshId + 1, freshId + 2)

/-- set data: stores `data || \x7b\x7d` and rewrites the DOM, the text
element from `text || the empty string` and the tag container from
`tags || []`, one span per identifier. -/
def setData (p : Paragraph) (d : Option InputData) : Paragraph :=
  let data := d.getD ⟨none, none⟩
  { p with
    textHTML := jsOr data.text ""
    tagsDOM := data.tags.getD [] }

/-- get data: recomputes the record from the DOM — the text from the
innerHTML of the text element, the tags from the children of the tag
container in DOM order. -/
def getData (p : Paragraph) : ParagraphData :=
  { text := p.textHTML, tags := p.tagsDOM }

/-- constructor: binds config defaults (placeholder by truthiness,
preserveBlank by an explicit undefined check), builds the view, then
seeds the DOM through the data setter with `text || the empty string`
and `tags || []`. -/
def construct (data : InputData) (config : ToolConfig) (readOnly : Bool)
    (freshId : Nat) : Paragraph :=
  let v := drawView freshId
  let base : Paragraph :=
    { textHTML := ""
      tagsDOM := []
      placeholder := jsOr config.placeholder DEFAULT_PLACEHOLDER
      preserveBlank := config.preserveBlank.getD false
      readOnly := readOnly
      textElement := v.1
      tagsElement := v.2.1
      containerElement := v.2.2 }
  setData base (some { text := some (jsOr data.text ""), tags := some (data.tags.getD []) })

/-- render: returns the wrapping container stored at construction; the
state is untouched. -/
def render (p : Paragraph) : Nat × Paragraph :=
  (p.containerElement, p)

/-- One step of building a JavaScript Set from a list: insert the element
at the end unless it is already present. -/
def addUnique (acc : List String) (x : String) : List String :=
  if x ∈ acc then acc else acc ++ [x]

/-- `[...new Set(l)]`: iteration of a JavaScript Set follows insertion
order, so the spread keeps the first occurrence of each element. -/
def jsSetOf (l : List String) : List String :=
  l.foldl addUnique []

/-- merge: new text is this text then the incoming text with nothing in
between; new tags spread both tag lists into a Set and back.  Spreading
an absent tags field throws a TypeError; concatenating an absent text
field coerces it to the string "undefined". -/
def merge (p : Paragraph) (d : InputData) : Except String Paragraph :=
  match d.tags with
  | none => Except.error "TypeError: spread of undefined"
  | some dtags =>
    let newText := p.textHTML ++ (match d.text with | none => "undefined" | some s => s)
    let newTags := jsSetOf (p.tagsDOM ++ dtags)
    Except.ok (setData p (some { text := some newText, tags := some newTags }))

/-- validate: false iff the trimmed text is empty and preserveBlank is
not set.  Calling trim on an absent text field throws a TypeError. -/
def validate (p : Paragraph) (savedData : InputData) : Except String Bool :=
  match savedData.text with
  | none => Except.error "TypeError: trim of undefined"
  | some t =>
    if t.trim = "" ∧ p.preserveBlank = false then Except.ok false
    else Except.ok true

/-- save: re-reads text and tags from the rendered view through the known
selectors — the same DOM state the getter reads. -/
def save (p : Paragraph) : ParagraphData :=
  { text := p.textHTML, tags := p.tagsDOM }

/-- onPaste: writes a record whose text is the innerHTML of the pasted
node and whose tags are the current tags (the getter always yields an
array, which is truthy, so `|| []` keeps it). -/
def onPaste (p : Paragraph) (pastedInnerHTML : String) : Paragraph :=
  setData p (some { text := some pastedInnerHTML, tags := some p.tagsDOM })

/-- textContent of an element whose innerHTML is the given markup string:
the characters outside angle-bracket tags.  (Entities are out of scope;
the claims only need that markup such as a stray line break element has
empty text content.) -/
def stripMarkup : List Char → Bool → List Char
  | [], _ => []
  | c :: rest, inTag =>
    if c = '<' then stripMarkup rest true
    else if c = '>' then stripMarkup rest false
    else if inTag then stripMarkup rest true
    else c :: stripMarkup rest false

/-- textContent derived from the stored innerHTML. -/
def textContentOf (s : String) : String :=
  ⟨stripMarkup s.data false⟩

/-- onKeyUp: returns early unless the key code is Backspace or Delete;
then, when the text content of the text element is empty, clears its
innerHTML. -/
def onKeyUp (p : Paragraph) (code : String) : Paragraph :=
  if code ≠ "Backspace" ∧ code ≠ "Delete" then p
  else if textContentOf p.textHTML = "" then { p with textHTML := "" } else p

/-- toggleTag: reads the current record; when the tag is present, splices
out its first occurrence, otherwise pushes it at the end; writes the
record back through the setter. -/
def toggleTag (p : Paragraph) (tag : String) : Paragraph :=
  if tag ∈ p.tagsDOM then
    setData p (some { text := some p.textHTML, tags := some (p.tagsDOM.erase tag) })
  else
    setData p (some { text := some p.textHTML, tags := some (p.tagsDOM ++ [tag]) })

/-- First-occurrence deduplication, stated independently of the Set
encoding: keep the head, drop its later occurrences, recurse. -/
def dedupFirst : List String → List String
  | [] => []
  | x :: xs => x :: dedupFirst (xs.filter (fun y => y != x))
termination_by l => l.length
decreasing_by
  simp only [List.length_cons]
  exact Nat.lt_succ_of_le (List.length_filter_le _ _)

/-- A concrete block used by the witnesses: constructed from a record. -/
def exampleBlock (t : String) (tg : List String) : Paragraph :=
  construct { text := some t, tags := some tg }
    { placeholder := none, preserveBlank := none } false 0

/-! ### Helper lemmas -/

theorem jsOr_some_self (s : String) : jsOr (some s) "" = s := by
  unfold jsOr
  by_cases h : s = "" <;> simp [h]

theorem setData_full (p : Paragraph) (t : String) (l : List String) :
    setData p (some { text := some t, tags := some l }) =
      { p with textHTML := t, tagsDOM := l } := by
  simp [setData, jsOr_some_self]

theorem toggleTag_tagsDOM (p : Paragraph) (tag : String) :
    (toggleTag p tag).tagsDOM =
      if tag ∈ p.tagsDOM then p.tagsDOM.erase tag else p.tagsDOM ++ [tag] := by
  unfold toggleTag
  by_cases h : tag ∈ p.tagsDOM <;> simp [h, setData_full]

theorem toggleTag_textHTML (p : Paragraph) (tag : String) :
    (toggleTag p tag).textHTML = p.textHTML := by
  unfold toggleTag
  by_cases h : tag ∈ p.tagsDOM <;> simp [h, setData_full]

theorem mem_dedupFirst (a : String) : ∀ l : List String, a ∈ dedupFirst l ↔ a ∈ l
  | [] => by simp [dedupFirst]
  | x :: xs => by
    rw [dedupFirst]
    by_cases hax : a = x
    · simp [hax]
    · have hlen : (xs.filter (fun y => y != x)).length < (x :: xs).length :=
        Nat.lt_succ_of_le (List.length_filter_le _ _)
      rw [List.mem_cons, mem_dedupFirst a (xs.filter (fun y => y != x))]
      simp [hax, List.mem_filter, bne_iff_ne]
termination_by l => l.length

theorem nodup_dedupFirst : ∀ l : List String, (dedupFirst l).Nodup
  | [] => by simp [dedupFirst]
  | x :: xs => by
    rw [dedupFirst]
    have hlen : (xs.filter (fun y => y != x)).length < (x :: xs).length :=
      Nat.lt_succ_of_le (List.length_filter_le _ _)
    refine List.nodup_cons.mpr ⟨?_, nodup_dedupFirst _⟩
    rw [mem_dedupFirst]
    simp [List.mem_filter]
termination_by l => l.length

theorem dedupFirst_of_nodup : ∀ l : List String, l.Nodup → dedupFirst l = l
  | [], _ => by simp [dedupFirst]
  | x :: xs, h => by
    rw [dedupFirst]
    have hx : x ∉ xs := (List.nodup_cons.mp h).1
    have hxs : xs.Nodup := (List.nodup_cons.mp h).2
    have hfilter : xs.filter (fun y => y != x) = xs := by
      apply List.filter_eq_self.mpr
      intro y hy
      simp [bne_iff_ne]
      intro hyx
      exact hx (hyx ▸ hy)
    rw [hfilter, dedupFirst_of_nodup xs hxs]

theorem foldl_addUnique (l : List String) :
    ∀ acc : List String,
      l.foldl addUnique acc = acc ++ dedupFirst (l.filter (fun y => decide (y ∉ acc))) := by
  induction l with
  | nil => intro acc; simp [dedupFirst]
  | cons x xs ih =>
    intro acc
    rw [List.foldl_cons]
    by_cases hx : x ∈ acc
    · have h1 : addUnique acc x = acc := by simp [addUnique, hx]
      have h2 : (x :: xs).filter (fun y => decide (y ∉ acc)) =
          xs.filter (fun y => decide (y ∉ acc)) := by
        simp [List.filter_cons, hx]
      rw [h1, h2, ih acc]
    · have h1 : addUnique acc x = acc ++ [x] := by simp [addUnique, hx]
      have h2 : (x :: xs).filter (fun y => decide (y ∉ acc)) =
          x :: xs.filter (fun y => decide (y ∉ acc)) := by
        simp [List.filter_cons, hx]
      have h3 : (xs.filter (fun y => decide (y ∉ acc))).filter (fun y => y != x) =
          xs.filter (fun y => decide (y ∉ acc ++ [x])) := by
        rw [List.filter_filter]
        apply List.filter_congr
        intro y _
        by_cases hyx : y = x
        · simp [hyx, List.mem_append]
        · by_cases hyacc : y ∈ acc <;> simp [hyx, hyacc, List.mem_append]
      rw [h1, h2, ih (acc ++ [x]), dedupFirst, h3, List.append_assoc]
      rfl

theorem jsSetOf_eq_dedupFirst (l : List String) : jsSetOf l = dedupFirst l := by
  rw [jsSetOf, foldl_addUnique l []]
  simp

theorem jsSetOf_append_of_nodup (a b : List String) (ha : a.Nodup) :
    jsSetOf (a ++ b) = a ++ dedupFirst (b.filter (fun y => decide (y ∉ a))) := by
  rw [jsSetOf, List.foldl_append]
  have h1 : a.foldl addUnique [] = a := by
    rw [foldl_addUnique a []]
    simp [dedupFirst_of_nodup a ha]
  rw [h1, foldl_addUnique b a]

/-! ### Claim theorems -/

/-- C1: writing a record whose tags have no duplicates through the data
setter and reading back through the data getter yields a record with the
same text and exactly the same tag identifiers, in the same order, with
no duplicates introduced or dropped. -/
theorem setData_getData_roundtrip (p : Paragraph) (s : String) (l : List String)
    (h : l.Nodup) :
    getData (setData p (some { text := some s, tags := some l })) =
      { text := s, tags := l } ∧
    (getData (setData p (some { text := some s, tags := some l }))).tags.Nodup := by
  rw [setData_full]
  exact ⟨rfl, h⟩

/-- C1 witness at a concrete markup string and tag list. -/
theorem setData_getData_roundtrip_witness :
    (["y", "x"] : List String).Nodup ∧
    getData (setData (exampleBlock "A" ["z"])
        (some { text := some "<b>hi</b>", tags := some ["y", "x"] })) =
      { text := "<b>hi</b>", tags := ["y", "x"] } :=
  ⟨by decide,
   (setData_getData_roundtrip (exampleBlock "A" ["z"]) "<b>hi</b>" ["y", "x"] (by decide)).1⟩

/-- C2 counterexample: the constructor copies a duplicate-containing tags
list verbatim into the DOM, so a duplicate identifier is observable
through the data getter right after construction. -/
theorem construct_duplicate_tags_observable :
    (getData (construct { text := some "", tags := some ["a", "a"] }
        { placeholder := none, preserveBlank := none } false 0)).tags = ["a", "a"] ∧
    ¬ (getData (construct { text := some "", tags := some ["a", "a"] }
        { placeholder := none, preserveBlank := none } false 0)).tags.Nodup := by
  constructor
  · decide
  · decide

/-- C2 amended: merge and toggle keep the tags free of duplicates on
their own (merge even restores freedom from duplicates), paste and
key-up leave the tags alone, and the constructor and the data setter
keep the invariant exactly when the record they are given has no
duplicate tags — duplicate-containing input records are copied
verbatim. -/
theorem tags_nodup_preserved
    (d : InputData) (cfg : ToolConfig) (ro : Bool) (n : Nat)
    (hd : ∀ l, d.tags = some l → l.Nodup)
    (p : Paragraph) (hp : p.tagsDOM.Nodup)
    (r : InputData) (hr : ∀ l, r.tags = some l → l.Nodup)
    (t2 : String) (l2 : List String) (tag code html : String) :
    (construct d cfg ro n).tagsDOM.Nodup ∧
    (setData p (some r)).tagsDOM.Nodup ∧
    (setData p none).tagsDOM.Nodup ∧
    (∀ p2, merge p { text := some t2, tags := some l2 } = Except.ok p2 →
      p2.tagsDOM.Nodup) ∧
    (onPaste p html).tagsDOM.Nodup ∧
    (toggleTag p tag).tagsDOM.Nodup ∧
    (onKeyUp p code).tagsDOM.Nodup := by
  refine ⟨?_, ?_, ?_, ?_, ?_, ?_, ?_⟩
  · have hc : (construct d cfg ro n).tagsDOM = d.tags.getD [] := by
      simp [construct, setData_full]
    rw [hc]
    cases hdt : d.tags with
    | none => simp
    | some l => simpa using hd l hdt
  · have hs : (setData p (some r)).tagsDOM = r.tags.getD [] := by
      simp [setData]
    rw [hs]
    cases hrt : r.tags with
    | none => simp
    | some l => simpa using hr l hrt
  · simp [setData]
  · intro p2 hmg
    unfold merge at hmg
    simp only [setData_full] at hmg
    have h2 : p2.tagsDOM = jsSetOf (p.tagsDOM ++ l2) := by
      cases hmg
      rfl
    rw [h2, jsSetOf_eq_dedupFirst]
    exact nodup_dedupFirst _
  · rw [onPaste, setData_full]
    exact hp
  · rw [toggleTag_tagsDOM]
    by_cases hmem : tag ∈ p.tagsDOM
    · simpa [hmem] using hp.erase tag
    · simp only [hmem, if_false]
      rw [List.nodup_append]
      exact ⟨hp, List.nodup_singleton tag, by simpa using hmem⟩
  · unfold onKeyUp
    by_cases h1 : code ≠ "Backspace" ∧ code ≠ "Delete" <;>
      by_cases h2 : textContentOf p.textHTML = "" <;> simp [h1, h2, hp]

/-- C2 amended witness: concrete instances for the constructor and the
toggle cases. -/
theorem tags_nodup_preserved_witness :
    (construct { text := some "", tags := some ["a"] }
      { placeholder := none, preserveBlank := none } false 0).tagsDOM.Nodup ∧
    (toggleTag (exampleBlock "A" ["y"]) "x").tagsDOM.Nodup := by
  have h := tags_nodup_preserved { text := some "", tags := some ["a"] }
    { placeholder := none, preserveBlank := none } false 0
    (by intro l hl; injection hl with h2; subst h2; decide)
    (exampleBlock "A" ["y"]) (by decide)
    { text := some "", tags := some ["b"] }
    (by intro l hl; injection hl with h2; subst h2; decide)
    "B" ["x"] "x" "Backspace" "pasted"
  exact ⟨h.1, h.2.2.2.2.2.1⟩

/-- C3: on a block whose tags have no duplicates (the documented record
invariant), merge yields the concatenated text with no separator, and
tags equal to this block's tags followed by the incoming identifiers not
already present, duplicates removed; a tag already present is not
duplicated. -/
theorem merge_spec (p : Paragraph) (t2 : String) (l2 : List String)
    (h : p.tagsDOM.Nodup) :
    merge p { text := some t2, tags := some l2 } =
      Except.ok { p with
        textHTML := (getData p).text ++ t2
        tagsDOM := (getData p).tags ++
          dedupFirst (l2.filter (fun y => decide (y ∉ (getData p).tags))) } ∧
    ((getData p).tags ++
      dedupFirst (l2.filter (fun y => decide (y ∉ (getData p).tags)))).Nodup := by
  constructor
  · unfold merge
    simp only [setData_full]
    rw [jsSetOf_append_of_nodup _ _ h]
    rfl
  · rw [List.nodup_append]
    refine ⟨h, nodup_dedupFirst _, ?_⟩
    intro a ha hb
    rw [mem_dedupFirst, List.mem_filter] at hb
    have := hb.2
    simp only [decide_eq_true_eq] at this
    exact this ha

/-- C3 witness: the spec example — merging text B and tag x into a block
holding text A and tag y yields text AB and tags y then x. -/
theorem merge_spec_witness :
    (exampleBlock "A" ["y"]).tagsDOM.Nodup ∧
    merge (exampleBlock "A" ["y"]) { text := some "B", tags := some ["x"] } =
      Except.ok { exampleBlock "A" ["y"] with textHTML := "AB", tagsDOM := ["y", "x"] } := by
  refine ⟨by decide, ?_⟩
  rw [(merge_spec (exampleBlock "A" ["y"]) "B" ["x"] (by decide)).1]
  have ht : (getData (exampleBlock "A" ["y"])).tags = ["y"] := by decide
  have hx : (getData (exampleBlock "A" ["y"])).text = "A" := by decide
  simp only [ht, hx]
  have hd : dedupFirst (List.filter (fun y => decide (y ∉ (["y"] : List String))) ["x"]) =
      ["x"] := by
    simp [dedupFirst]
  rw [hd]
  exact congrArg Except.ok (by decide)

/-- C4: for a saved record (text present), validate returns false exactly
when the trimmed text is empty and preserveBlank is not set, returns
true otherwise, and the tags field never changes the result. -/
theorem validate_spec (p : Paragraph) (t : String) (tg tg2 : Option (List String)) :
    (validate p { text := some t, tags := tg } = Except.ok false ↔
      (t.trim = "" ∧ p.preserveBlank = false)) ∧
    (validate p { text := some t, tags := tg } = Except.ok true ↔
      ¬ (t.trim = "" ∧ p.preserveBlank = false)) ∧
    validate p { text := some t, tags := tg } = validate p { text := some t, tags := tg2 } := by
  unfold validate
  by_cases h : t.trim = "" ∧ p.preserveBlank = false <;> simp [h]

/-- C5 counterexample: validate with an absent text field throws instead
of defaulting the text to the empty string, and merge with an absent
tags field throws instead of defaulting the tags to the empty
sequence. -/
theorem validate_merge_missing_field_throws :
    validate (exampleBlock "A" ["y"]) { text := none, tags := some [] } =
      Except.error "TypeError: trim of undefined" ∧
    merge (exampleBlock "A" ["y"]) { text := some "B", tags := none } =
      Except.error "TypeError: spread of undefined" := by
  exact ⟨rfl, rfl⟩

/-- C5 amended: construction and the data setter substitute the
documented defaults for every missing input and never fail; validate
succeeds whenever text is present, and merge succeeds whenever tags are
present (an absent text is coerced, not defaulted, there). -/
theorem defaulting_spec (cfg : ToolConfig) (ro : Bool) (n : Nat)
    (p : Paragraph) (t : String) (tg : Option (List String))
    (dt : Option String) (l : List String) :
    (construct { text := none, tags := none } cfg ro n).textHTML = "" ∧
    (construct { text := none, tags := none } cfg ro n).tagsDOM = [] ∧
    (construct { text := none, tags := none }
      { placeholder := none, preserveBlank := cfg.preserveBlank } ro n).placeholder = "" ∧
    (construct { text := none, tags := none }
      { placeholder := cfg.placeholder, preserveBlank := none } ro n).preserveBlank = false ∧
    setData p none = { p with textHTML := "", tagsDOM := [] } ∧
    (∃ b, validate p { text := some t, tags := tg } = Except.ok b) ∧
    (∃ p2, merge p { text := dt, tags := some l } = Except.ok p2) := by
  refine ⟨?_, ?_, ?_, ?_, ?_, ?_, ?_⟩
  · simp [construct, setData_full, jsOr]
  · simp [construct, setData_full]
  · simp [construct, setData_full, jsOr, DEFAULT_PLACEHOLDER]
  · simp [construct, setData_full]
  · simp [setData, jsOr]
  · unfold validate
    by_cases h : t.trim = "" ∧ p.preserveBlank = false <;> simp [h]
  · exact ⟨_, rfl⟩

/-- C6: paste replaces the text with the pasted inner markup and leaves
the tags sequence exactly as it was — same identifiers, same order. -/
theorem onPaste_spec (p : Paragraph) (html : String) :
    getData (onPaste p html) = { text := html, tags := (getData p).tags } := by
  rw [onPaste, setData_full]
  rfl

/-- C7 counterexample: on a state already holding a duplicate tag (such a
state is reachable through the data setter), toggling the tag twice
removes both copies, so membership is not restored. -/
theorem toggleTag_twice_duplicate_state :
    ("a" ∈ (setData (exampleBlock "" [])
        (some { text := some "", tags := some ["a", "a"] })).tagsDOM) ∧
    "a" ∉ (toggleTag (toggleTag (setData (exampleBlock "" [])
        (some { text := some "", tags := some ["a", "a"] })) "a") "a").tagsDOM := by
  decide

/-- C7 amended: on any state holding the identifier at most once (every
state satisfying the no-duplicate invariant), toggling twice restores
membership to its original value, and toggling an absent tag adds it
exactly once, the second toggle removing exactly the copy added. -/
theorem toggleTag_spec (p : Paragraph) (tag : String)
    (h : p.tagsDOM.count tag ≤ 1) :
    ((tag ∈ (toggleTag (toggleTag p tag) tag).tagsDOM) ↔ tag ∈ p.tagsDOM) ∧
    (tag ∉ p.tagsDOM → (toggleTag p tag).tagsDOM.count tag = 1 ∧
      (toggleTag (toggleTag p tag) tag).tagsDOM = p.tagsDOM) := by
  by_cases hmem : tag ∈ p.tagsDOM
  · have h1 : (toggleTag p tag).tagsDOM = p.tagsDOM.erase tag := by
      rw [toggleTag_tagsDOM]
      simp [hmem]
    have hcount : p.tagsDOM.count tag = 1 :=
      Nat.le_antisymm h (List.count_pos_iff.mpr hmem)
    have h2 : tag ∉ (toggleTag p tag).tagsDOM := by
      rw [h1, ← List.count_eq_zero, List.count_erase_self, hcount]
    have h3 : (toggleTag (toggleTag p tag) tag).tagsDOM =
        (toggleTag p tag).tagsDOM ++ [tag] := by
      rw [toggleTag_tagsDOM]
      simp [h2]
    constructor
    · rw [h3]
      simp [hmem]
    · intro hc
      exact absurd hmem hc
  · have h1 : (toggleTag p tag).tagsDOM = p.tagsDOM ++ [tag] := by
      rw [toggleTag_tagsDOM]
      simp [hmem]
    have h2 : tag ∈ (toggleTag p tag).tagsDOM := by
      rw [h1]
      simp
    have h3 : (toggleTag (toggleTag p tag) tag).tagsDOM = p.tagsDOM := by
      rw [toggleTag_tagsDOM]
      simp only [h2, if_true]
      rw [h1, List.erase_append_right _ hmem]
      simp
    refine ⟨by rw [h3], fun _ => ⟨?_, h3⟩⟩
    rw [h1, List.count_append]
    rw [List.count_eq_zero.mpr hmem]
    simp

/-- C7 amended witness: toggling an absent tag on a concrete block adds
it once and toggling again restores the original tags. -/
theorem toggleTag_spec_witness :
    (exampleBlock "A" ["y"]).tagsDOM.count "x" ≤ 1 ∧
    (toggleTag (exampleBlock "A" ["y"]) "x").tagsDOM.count "x" = 1 ∧
    (toggleTag (toggleTag (exampleBlock "A" ["y"]) "x") "x").tagsDOM =
      (exampleBlock "A" ["y"]).tagsDOM := by
  refine ⟨by decide, ?_, ?_⟩
  · exact ((toggleTag_spec (exampleBlock "A" ["y"]) "x" (by decide)).2 (by decide)).1
  · exact ((toggleTag_spec (exampleBlock "A" ["y"]) "x" (by decide)).2 (by decide)).2

/-- C8: on a Backspace or Delete key-up with empty text content, the
handler clears the inner markup to exactly the empty string, so reading
text immediately afterwards yields the empty string and tags are
untouched; any other key code leaves the state unchanged. -/
theorem onKeyUp_spec (p : Paragraph) (code : String) :
    ((code = "Backspace" ∨ code = "Delete") → textContentOf p.textHTML = "" →
      ((onKeyUp p code).textHTML = "" ∧ (getData (onKeyUp p code)).text = "" ∧
        (onKeyUp p code).tagsDOM = p.tagsDOM)) ∧
    ((code ≠ "Backspace" ∧ code ≠ "Delete") → onKeyUp p code = p) := by
  constructor
  · intro hcode hempty
    have hnot : ¬ (code ≠ "Backspace" ∧ code ≠ "Delete") := by
      rcases hcode with h | h <;> simp [h]
    unfold onKeyUp
    simp [hnot, hempty, getData]
  · intro hcode
    unfold onKeyUp
    simp [hcode]

/-- C8 witness: a stray line-break element has empty text content and is
collapsed on Backspace; a letter key leaves the block alone. -/
theorem onKeyUp_spec_witness :
    (onKeyUp (exampleBlock "<br>" ["y"]) "Backspace").textHTML = "" ∧
    onKeyUp (exampleBlock "<br>" ["y"]) "KeyA" = exampleBlock "<br>" ["y"] :=
  ⟨((onKeyUp_spec (exampleBlock "<br>" ["y"]) "Backspace").1 (Or.inl rfl) (by decide)).1,
   (onKeyUp_spec (exampleBlock "<br>" ["y"]) "KeyA").2 (by decide)⟩

/-- C9: render always returns the wrapping container stored at
construction, changes no state, and repeated calls return the identical
element; for a constructed block it is exactly the container drawView
allocated. -/
theorem render_idempotent (p : Paragraph) (d : InputData) (cfg : ToolConfig)
    (ro : Bool) (n : Nat) :
    (render p).1 = p.containerElement ∧
    (render p).2 = p ∧
    (render ((render p).2)).1 = (render p).1 ∧
    (render (construct d cfg ro n)).1 = (drawView n).2.2 := by
  exact ⟨rfl, rfl, rfl, rfl⟩

/-- C10: merge deduplicates over the full concatenation of both tag
sequences, keeping each identifier's first occurrence, and thereby
restores freedom from duplicates even from a duplicate-containing
state. -/
theorem merge_dedups_full_concatenation (p : Paragraph) (t : String) (l : List String) :
    merge p { text := some t, tags := some l } =
      Except.ok { p with textHTML := p.textHTML ++ t
                         tagsDOM := dedupFirst (p.tagsDOM ++ l) } ∧
    (dedupFirst (p.tagsDOM ++ l)).Nodup ∧
    (∀ x, x ∈ dedupFirst (p.tagsDOM ++ l) ↔ x ∈ p.tagsDOM ++ l) := by
  refine ⟨?_, nodup_dedupFirst _, fun x => mem_dedupFirst x _⟩
  unfold merge
  simp only [setData_full]
  rw [jsSetOf_eq_dedupFirst]

end ParagraphBlock
